import Mathlib

/-!
Shallow embedding of the TODO-to-issue extraction and diff-rewriting pipeline
of `src/gait/ai_pr.py` (function `process_todos` and its helper
`create_linear_issue`), together with the configuration handling of
`src/gait/linear_client.py` (`LinearClient._init_client`).

Lines, file paths and file contents are modelled as `List Char`; Python string
operations (`startswith`, `strip`, `lstrip`, `rstrip`, `split`, `readlines`,
slicing) are embedded as explicit recursive functions on character lists.
The regular expressions of the source are embedded as deterministic parsers
that agree with the (backtracking) regex semantics on all inputs; the
correspondence is argued in the doc comments of the parser functions.
-/

namespace Gait

/-- Python `\s` / `str.strip` whitespace, restricted to the ASCII range
(the diffs and lines handled by the tool are ASCII-line oriented). -/
def pyIsSpace (c : Char) : Bool :=
  c = ' ' || c = '\t' || c = '\n' || c = '\r' || c = '\x0b' || c = '\x0c'

/-- Python `str.strip()`: remove leading and trailing whitespace. -/
def stripWs (l : List Char) : List Char :=
  ((l.dropWhile pyIsSpace).reverse.dropWhile pyIsSpace).reverse

/-- Python `str.rstrip('\n')`: remove trailing newline characters. -/
def rstripNl (l : List Char) : List Char :=
  (l.reverse.dropWhile (fun c => c = '\n')).reverse

/-- Python `str.lstrip('+')`: remove leading `+` characters. -/
def lstripPlus (l : List Char) : List Char :=
  l.dropWhile (fun c => c = '+')

/-- Python `str.startswith`: `startsW pre l` is true when `pre` is a prefix of `l`. -/
def startsW : List Char → List Char → Bool
  | [], _ => true
  | _ :: _, [] => false
  | p :: ps, c :: cs => p = c && startsW ps cs

/-- Python `str.split('\n')`: always returns at least one (possibly empty) chunk. -/
def splitNlL : List Char → List (List Char)
  | [] => [[]]
  | c :: rest =>
    if c = '\n' then [] :: splitNlL rest
    else
      match splitNlL rest with
      | [] => [[c]]
      | h :: t => (c :: h) :: t

/-- Python `'\n'.join`. -/
def joinNlL (ls : List (List Char)) : List Char :=
  match ls with
  | [] => []
  | [l] => l
  | l :: rest => l ++ '\n' :: joinNlL rest

/-- Python `file.readlines()`: split after each newline, keeping the newline;
a final chunk without a newline is kept, an empty final chunk is dropped. -/
def readlinesL : List Char → List (List Char)
  | [] => []
  | c :: rest =>
    if c = '\n' then ['\n'] :: readlinesL rest
    else
      match readlinesL rest with
      | [] => [[c]]
      | h :: t => (c :: h) :: t

/-!
## The TODO regex

The source compiles
  `todo_pattern = r'^\+\s*(?:#|//)\s*TODO(?:\(([^)]*)\))?:\s+(.+)$'`
and applies it with `re.search` to single diff lines (which contain no `'\n'`,
so `^`/`$` anchor the whole line and `re.search` coincides with a full
anchored match).  The parser below is deterministic; it agrees with the
backtracking regex because every backtracking opportunity is vacuous:
`(?:#|//)` alternatives start with distinct characters, `[^)]*` cannot cross
a `)` so `\)` always consumes the first `)`, and when the optional context
group `(?:\(...\))?` starts to match at a `(` its empty alternative would
require `:` to match that same `(`, which is impossible.  For `\s+(.+)$`:
when anything follows the maximal whitespace run the groups are the run and
the remainder; when only whitespace (at least two characters) follows the
colon, backtracking leaves exactly the last whitespace character to `(.+)`.
-/

/-- Match `:\s+(.+)$` against the remainder of the line; returns the pair
(context group, raw second capture group). -/
def afterCtx (ctx : Option (List Char)) (l : List Char) :
    Option (Option (List Char) × List Char) :=
  match l with
  | ':' :: rest =>
    let ws := rest.takeWhile pyIsSpace
    let tl := rest.dropWhile pyIsSpace
    if ws.isEmpty then none
    else if tl.isEmpty then
      match ws.reverse with
      | c :: _ :: _ => some (ctx, [c])
      | _ => none
    else some (ctx, tl)
  | _ => none

/-- Match `(?:\(([^)]*)\))?:\s+(.+)$` against the part after `TODO`. -/
def afterTodo (l : List Char) : Option (Option (List Char) × List Char) :=
  match l with
  | '(' :: rest =>
    let ctx := rest.takeWhile (fun c => c ≠ ')')
    match rest.dropWhile (fun c => c ≠ ')') with
    | ')' :: rest3 => afterCtx (some ctx) rest3
    | _ => none
  | _ => afterCtx none l

/-- Match `TODO(?:\(([^)]*)\))?:\s+(.+)$` after the comment opener. -/
def todoKw (l : List Char) : Option (Option (List Char) × List Char) :=
  match l.dropWhile pyIsSpace with
  | 'T' :: 'O' :: 'D' :: 'O' :: rest => afterTodo rest
  | _ => none

/-- The full anchored `todo_pattern` match on a diff line: returns
`(group 1, group 2)` = (optional context token, raw comment text). -/
def todoMatchL (l : List Char) : Option (Option (List Char) × List Char) :=
  match l with
  | '+' :: rest =>
    match rest.dropWhile pyIsSpace with
    | '#' :: r2 => todoKw r2
    | '/' :: '/' :: r2 => todoKw r2
    | _ => none
  | _ => none

/-- The anchored issue-identifier pattern `^[A-Z]{2,}-\d+$` of the source
(`issue_id_pattern`), applied with `re.match`. -/
def isIssueId (l : List Char) : Bool :=
  let caps := l.takeWhile (fun c => 'A' ≤ c && c ≤ 'Z')
  decide (2 ≤ caps.length) &&
    match l.dropWhile (fun c => 'A' ≤ c && c ≤ 'Z') with
    | '-' :: ds => !ds.isEmpty && ds.all (fun c => '0' ≤ c && c ≤ '9')
    | _ => false

/-- The guard `if context and re.match(issue_id_pattern, context)` of the
source: an absent context and the empty context string are both falsy. -/
def ctxValid : Option (List Char) → Bool
  | some c => isIssueId c
  | none => false

/-- `re.match(r'^\+\s*', line).group()` on a line starting with `+`:
the `+` marker together with the whitespace that follows it. -/
def plusIndent (l : List Char) : List Char :=
  match l with
  | '+' :: rest => '+' :: rest.takeWhile pyIsSpace
  | _ => []

/-- `'#' if '#' in line else '//'`: the comment symbol used when
reconstructing the line (note: it scans the whole line for `#`). -/
def commentSymbol (l : List Char) : List Char :=
  if l.any (fun c => c = '#') then ['#'] else ['/', '/']

/-!
## The extraction / rewriting loop of `process_todos`

The loop state carries the mutable variables of the Python loop
(`current_file`, `updated_lines`, `todos`, `file_changes`) plus `calls`, an
event trace recording each invocation of `create_linear_issue` (the title it
was called with), used to state that no issue-creation call happens.
The issue tracker is a parameter `tracker : List Char → Option (List Char)`
standing for `create_linear_issue` with its configuration fixed: `some id`
models a returned identifier, `none` models a `None` (failure) return.
-/

/-- One entry of the Python `todos` list: the 4-tuple
`(current_file, line, issue-id-or-context, comment)`. -/
abbrev Todo := List Char × List Char × List Char × List Char

/-- One entry of a `file_changes` value: `(old_line, new_line)` with the diff
marker stripped. -/
abbrev FileEdit := List Char × List Char

/-- The state of the line-scanning loop of `process_todos`. -/
structure PtState where
  currentFile : Option (List Char)
  updatedLines : List (List Char)
  todos : List Todo
  fileChanges : List (List Char × List FileEdit)
  calls : List (List Char)
deriving DecidableEq, Repr

/-- The initial loop state. -/
def initState : PtState := ⟨none, [], [], [], []⟩

/-- `file_changes[current_file].append(edit)` on the insertion-ordered dict,
creating the key on first use (Python dict iteration is insertion-ordered,
so an association list is a faithful model). -/
def addChange (fc : List (List Char × List FileEdit)) (f : List Char)
    (e : FileEdit) : List (List Char × List FileEdit) :=
  if fc.any (fun kv => kv.1 = f) then
    fc.map (fun kv => if kv.1 = f then (kv.1, kv.2 ++ [e]) else kv)
  else fc ++ [(f, [e])]

/-- The body of `for line in diff.split('\n')` in `process_todos`:
file-header tracking, TODO detection, the idempotence guard, issue creation
and line rewriting.  The guard `if not todo_match or not current_file:` is
by Python truthiness: it also fires when `current_file` is the empty string
(a `+++` header shorter than 7 characters, e.g. a bare `+++` produced by an
added line `++`, makes `line[6:]` empty), so a TODO under an empty current
file is passed through exactly like one seen before any header. -/
def processLine (tracker : List Char → Option (List Char)) (st : PtState)
    (line : List Char) : PtState :=
  if startsW "+++".data line then
    let cf0 := line.drop 6
    let cf := if startsW "b/".data cf0 then cf0.drop 2 else cf0
    { st with currentFile := some cf, updatedLines := st.updatedLines ++ [line] }
  else if !startsW "+".data line then
    { st with updatedLines := st.updatedLines ++ [line] }
  else
    match todoMatchL line, st.currentFile with
    | some (ctx, rawComment), some cf =>
      if cf.isEmpty then
        { st with updatedLines := st.updatedLines ++ [line] }
      else
        let comment := stripWs rawComment
        if ctxValid ctx then
          { st with todos := st.todos ++ [(cf, line, ctx.getD [], comment)],
                    updatedLines := st.updatedLines ++ [line] }
        else
          match tracker comment with
          | some issueId =>
            let newLine := plusIndent line ++ commentSymbol line ++
              " TODO(".data ++ issueId ++ "): ".data ++ comment
            { st with
                fileChanges := addChange st.fileChanges cf
                  (lstripPlus line, lstripPlus newLine),
                todos := st.todos ++ [(cf, newLine, issueId, comment)],
                updatedLines := st.updatedLines ++ [newLine],
                calls := st.calls ++ [comment] }
          | none =>
            { st with updatedLines := st.updatedLines ++ [line],
                      calls := st.calls ++ [comment] }
    | _, _ =>
      { st with updatedLines := st.updatedLines ++ [line] }

/-- The whole scanning loop of `process_todos` over the list of diff lines. -/
def processTodosLines (tracker : List Char → Option (List Char))
    (lines : List (List Char)) : PtState :=
  lines.foldl (processLine tracker) initState

/-!
## The file-synchronization block of `process_todos`

The working tree is modelled as a partial map from file path to file content;
`none` stands for a file whose `open` raises (the `except` branch of the
source).  The synchronizer also returns the traces of reads, writes and
printed messages, so that absence of file effects and the exact diagnostics
are statable.
-/

/-- The working tree: file path to content, `none` when opening fails. -/
abbrev FileSys := List Char → Option (List Char)

/-- The per-line update of the synchronization loop: strip the trailing
newline of the file line, compare against each pending edit's whitespace-
stripped old line in order, and on the first match replace the line with the
new line plus a newline. -/
def updLine (changes : List FileEdit) (line : List Char) : List Char :=
  match changes.find? (fun e => rstripNl line = stripWs e.1) with
  | some e => e.2 ++ ['\n']
  | none => line

/-- The read-modify-write pass for one file: `f.readlines()`, per-line
update, `f.writelines(...)`. -/
def updateFileContent (changes : List FileEdit) (content : List Char) :
    List Char :=
  ((readlinesL content).map (updLine changes)).flatten

/-- The outcome of the synchronization block: the final working tree and the
traces of file reads, file writes and printed messages. -/
structure SyncResult where
  fs : FileSys
  reads : List (List Char)
  writes : List (List Char × List Char)
  log : List (List Char)

/-- The `for file_path, changes in file_changes.items()` loop: per file,
print the header, read, update, write and print the unconditional success
message; an unreadable file logs an error and processing continues. -/
def syncFiles (fc : List (List Char × List FileEdit)) (fs0 : FileSys) :
    SyncResult :=
  fc.foldl
    (fun r pc =>
      let header := "\nUpdating file: ".data ++ pc.1
      match r.fs pc.1 with
      | some content =>
        let newContent := updateFileContent pc.2 content
        { fs := fun q => if q = pc.1 then some newContent else r.fs q,
          reads := r.reads ++ [pc.1],
          writes := r.writes ++ [(pc.1, newContent)],
          log := r.log ++ [header,
            "✅ Updated ".data ++ (toString pc.2.length).data ++
              " TODOs in ".data ++ pc.1] }
      | none =>
        { r with
            reads := r.reads ++ [pc.1],
            log := r.log ++ [header, "❌ Error updating ".data ++ pc.1] })
    ⟨fs0, [], [], []⟩

/-- The result of `process_todos`: the joined rewritten diff text, the
`todos` list, the issue-creation call trace, and the file-synchronization
outcome. -/
structure PtResult where
  text : List Char
  todos : List Todo
  calls : List (List Char)
  fs : FileSys
  reads : List (List Char)
  writes : List (List Char × List Char)
  syncLog : List (List Char)

/-- `process_todos(diff, test_mode)`: scan the diff lines, then (only when
not in test mode) synchronize the working-tree files. -/
def process_todos (tracker : List Char → Option (List Char))
    (test_mode : Bool) (diff : List Char) (fs0 : FileSys) : PtResult :=
  let st := processTodosLines tracker (splitNlL diff)
  let sync := if test_mode then SyncResult.mk fs0 [] [] []
              else syncFiles st.fileChanges fs0
  { text := joinNlL st.updatedLines, todos := st.todos, calls := st.calls,
    fs := sync.fs, reads := sync.reads, writes := sync.writes,
    syncLog := sync.log }

/-!
## `create_linear_issue` configuration handling (`ai_pr.py`, lines 264-349)
and `LinearClient._init_client` (`linear_client.py`, lines 14-41)

The environment variables are modelled as a configuration record; the remote
GraphQL endpoint is a parameter `remote : List Char → Option (List Char)`
(`some id` for a successful `issueCreate`, `none` for a
`TransportQueryError`).  Python's per-process salted `hash(title)` of the
test-mode branch is modelled as a parameter `testId`.  Each observable
action (error print, remote creation call, remote team/project listing) is
recorded in an event trace.
-/

/-- The observable actions of the Linear client code paths. -/
inductive LinEvent
  | printError (msg : List Char)
  | createCall (title : List Char)
  | listTeams
deriving DecidableEq, Repr

/-- The three environment variables read by the Linear integration. -/
structure LinearConfig where
  api_key : Option (List Char)
  team_id : Option (List Char)
  project_id : Option (List Char)
deriving DecidableEq, Repr

/-- `create_linear_issue(title, test_mode)` of `ai_pr.py`: the test-mode
shortcut, the three configuration checks (each returning `None`), the remote
`issueCreate` mutation, and on remote failure the error print plus the
best-effort team/project listing. -/
def create_linear_issue (remote : List Char → Option (List Char))
    (testId : List Char → List Char) (cfg : LinearConfig) (test_mode : Bool)
    (title : List Char) : Option (List Char) × List LinEvent :=
  if test_mode then (some (testId title), [])
  else
    match cfg.api_key with
    | none => (none,
        [.printError "Error: LINEAR_API_KEY not found in environment variables".data])
    | some _ =>
      match cfg.team_id with
      | none => (none,
          [.printError "Error: LINEAR_TEAM_ID not found in environment variables".data])
      | some _ =>
        match cfg.project_id with
        | none => (none,
            [.printError "Error: LINEAR_PROJECT_ID not found in environment variables".data])
        | some _ =>
          match remote title with
          | some ident => (some ident, [.createCall title])
          | none => (none,
              [.createCall title,
               .printError "Error creating Linear issue".data,
               .listTeams])

/-- `LinearClient._init_client` of `linear_client.py`: raises `ValueError`
(modelled as `Except.error`) on each missing variable; a missing project id
first prints a notice and performs the team/project listing, then raises. -/
def linearClientInitClient (cfg : LinearConfig) :
    Except (List Char) Unit × List LinEvent :=
  match cfg.api_key with
  | none => (.error "Missing required Linear API key".data, [])
  | some _ =>
    match cfg.team_id with
    | none => (.error "Missing required Linear team ID".data, [])
    | some _ =>
      match cfg.project_id with
      | none =>
        (.error "Please set LINEAR_PROJECT_ID to one of the above project IDs".data,
         [.printError "LINEAR_PROJECT_ID not found in environment variables".data,
          .listTeams])
      | some _ => (.ok (), [])

/-!
## Spec-side definition for the candidate grammar (claim comparison only)
-/

/-- Modelled from the spec: the spec's TODO-candidate grammar (`spec.md`
§4.1 step 2), which also allows the `/*` comment opener.  Used only to
compare the spec's stated grammar with the one implemented by
`todo_pattern`; the source regex accepts `#` and `//` only. -/
def todoCandidateSpec (l : List Char) : Bool :=
  !startsW "+++".data l &&
    match l with
    | '+' :: rest =>
      (match rest.dropWhile pyIsSpace with
       | '#' :: r2 => todoKw r2
       | '/' :: '/' :: r2 => todoKw r2
       | '/' :: '*' :: r2 => todoKw r2
       | _ => none).isSome
    | _ => false

/-!
## Basic lemmas about the parser and the loop step
-/

theorem todoMatchL_plus {l : List Char} {r : Option (List Char) × List Char}
    (h : todoMatchL l = some r) : ∃ rest, l = '+' :: rest := by
  cases l with
  | nil => simp [todoMatchL] at h
  | cons c cs =>
    by_cases hc : c = '+'
    · exact ⟨cs, by rw [hc]⟩
    · simp only [todoMatchL] at h
      split at h <;> simp_all

theorem todoMatchL_not_plusplus {rest : List Char}
    {r : Option (List Char) × List Char}
    (h : todoMatchL ('+' :: rest) = some r) : ¬ ∃ t, rest = '+' :: t := by
  rintro ⟨t, rfl⟩
  have hdrop : ('+' :: t).dropWhile pyIsSpace = '+' :: t := by
    rw [List.dropWhile_cons_of_neg]
    simp [pyIsSpace]
  have hred : (match ('+' :: t : List Char) with
      | '#' :: r2 => todoKw r2
      | '/' :: '/' :: r2 => todoKw r2
      | _ => none) = (none : Option (Option (List Char) × List Char)) := rfl
  simp only [todoMatchL, hdrop, hred] at h
  exact Option.noConfusion h

theorem todoMatchL_no_header {l : List Char}
    {r : Option (List Char) × List Char}
    (h : todoMatchL l = some r) : startsW "+++".data l = false := by
  obtain ⟨rest, rfl⟩ := todoMatchL_plus h
  have hne := todoMatchL_not_plusplus h
  show startsW ('+' :: '+' :: '+' :: []) ('+' :: rest) = false
  cases rest with
  | nil => simp [startsW]
  | cons c cs =>
    by_cases hc : c = '+'
    · exact absurd ⟨cs, by rw [hc]⟩ hne
    · simp [startsW, Ne.symm hc]

theorem todoMatchL_startsW_plus {l : List Char}
    {r : Option (List Char) × List Char}
    (h : todoMatchL l = some r) : startsW "+".data l = true := by
  obtain ⟨rest, rfl⟩ := todoMatchL_plus h
  simp [startsW]

/-- A line that is not a `+++` header and does not start with `+` is passed
through unchanged. -/
theorem processLine_ctx {tracker : List Char → Option (List Char)}
    {st : PtState} {line : List Char}
    (hh : startsW "+++".data line = false)
    (hp : startsW "+".data line = false) :
    processLine tracker st line =
      { st with updatedLines := st.updatedLines ++ [line] } := by
  simp [processLine, hh, hp]

/-- An added line that does not match the TODO pattern is passed through
unchanged. -/
theorem processLine_noMatch {tracker : List Char → Option (List Char)}
    {st : PtState} {line : List Char}
    (hh : startsW "+++".data line = false)
    (hm : todoMatchL line = none) :
    processLine tracker st line =
      { st with updatedLines := st.updatedLines ++ [line] } := by
  by_cases hp : startsW "+".data line = true
  · simp [processLine, hh, hp, hm]
  · simp only [Bool.not_eq_true] at hp
    exact processLine_ctx hh hp

/-- A TODO-matching line seen while no file header has been seen yet is
passed through unchanged (no record, no edit, no call). -/
theorem processLine_noFile {tracker : List Char → Option (List Char)}
    {st : PtState} {line : List Char}
    {r : Option (List Char) × List Char}
    (hm : todoMatchL line = some r) (hf : st.currentFile = none) :
    processLine tracker st line =
      { st with updatedLines := st.updatedLines ++ [line] } := by
  simp [processLine, todoMatchL_no_header hm, todoMatchL_startsW_plus hm, hm, hf]

/-- A TODO-matching line whose current file is the empty path (a header
shorter than 7 characters, falsy in Python) is passed through unchanged
(no record, no edit, no call), like one seen before any header. -/
theorem processLine_emptyFile {tracker : List Char → Option (List Char)}
    {st : PtState} {line : List Char}
    {r : Option (List Char) × List Char}
    (hm : todoMatchL line = some r) (hf : st.currentFile = some []) :
    processLine tracker st line =
      { st with updatedLines := st.updatedLines ++ [line] } := by
  simp [processLine, todoMatchL_no_header hm, todoMatchL_startsW_plus hm, hm, hf]

/-- A non-empty list has `isEmpty = false`. -/
theorem isEmpty_false_of_ne_nil {l : List Char} (h : l ≠ []) :
    l.isEmpty = false := by
  cases l with
  | nil => exact absurd rfl h
  | cons a as => rfl

/-- A TODO-matching line whose context token passes the issue-id check is
recorded as already resolved and passed through unchanged; no call is made. -/
theorem processLine_skip {tracker : List Char → Option (List Char)}
    {st : PtState} {line cf : List Char} {ctx : Option (List Char)}
    {raw : List Char}
    (hm : todoMatchL line = some (ctx, raw)) (hv : ctxValid ctx = true)
    (hf : st.currentFile = some cf) (hcf : cf ≠ []) :
    processLine tracker st line =
      { st with
          todos := st.todos ++ [(cf, line, ctx.getD [], stripWs raw)],
          updatedLines := st.updatedLines ++ [line] } := by
  simp [processLine, todoMatchL_no_header hm, todoMatchL_startsW_plus hm, hm,
    hf, hv, isEmpty_false_of_ne_nil hcf]

/-- A TODO-matching line without a valid context token, for which the
tracker returns an identifier, is rewritten, recorded, and its file edit is
appended under the current file. -/
theorem processLine_create {tracker : List Char → Option (List Char)}
    {st : PtState} {line cf id : List Char} {ctx : Option (List Char)}
    {raw : List Char}
    (hm : todoMatchL line = some (ctx, raw)) (hv : ctxValid ctx = false)
    (hf : st.currentFile = some cf) (hcf : cf ≠ [])
    (ht : tracker (stripWs raw) = some id) :
    processLine tracker st line =
      { st with
          fileChanges := addChange st.fileChanges cf
            (lstripPlus line,
             lstripPlus (plusIndent line ++ commentSymbol line ++
               " TODO(".data ++ id ++ "): ".data ++ stripWs raw)),
          todos := st.todos ++ [(cf,
            plusIndent line ++ commentSymbol line ++ " TODO(".data ++ id ++
              "): ".data ++ stripWs raw, id, stripWs raw)],
          updatedLines := st.updatedLines ++
            [plusIndent line ++ commentSymbol line ++ " TODO(".data ++ id ++
              "): ".data ++ stripWs raw],
          calls := st.calls ++ [stripWs raw] } := by
  simp [processLine, todoMatchL_no_header hm, todoMatchL_startsW_plus hm, hm,
    hf, hv, isEmpty_false_of_ne_nil hcf, ht]

/-- A TODO-matching line without a valid context token, for which the
tracker returns failure, is passed through unchanged and nothing is recorded
in `todos` or `file_changes`; only the call trace grows. -/
theorem processLine_fail {tracker : List Char → Option (List Char)}
    {st : PtState} {line cf : List Char} {ctx : Option (List Char)}
    {raw : List Char}
    (hm : todoMatchL line = some (ctx, raw)) (hv : ctxValid ctx = false)
    (hf : st.currentFile = some cf) (hcf : cf ≠ [])
    (ht : tracker (stripWs raw) = none) :
    processLine tracker st line =
      { st with
          updatedLines := st.updatedLines ++ [line],
          calls := st.calls ++ [stripWs raw] } := by
  simp [processLine, todoMatchL_no_header hm, todoMatchL_startsW_plus hm, hm,
    hf, hv, isEmpty_false_of_ne_nil hcf, ht]

/-- A header check reduces `processLine` to a file switch plus pass-through. -/
theorem processLine_header {tracker : List Char → Option (List Char)}
    {st : PtState} {line : List Char}
    (hh : startsW "+++".data line = true) :
    processLine tracker st line =
      { st with
          currentFile := some (if startsW "b/".data (line.drop 6) then
            (line.drop 6).drop 2 else line.drop 6),
          updatedLines := st.updatedLines ++ [line] } := by
  simp [processLine, hh]

/-- Any line all of whose TODO matches carry a valid context is passed
through with no call, no new todo record and no new edit. -/
theorem processLine_validOnly {tracker : List Char → Option (List Char)}
    {st : PtState} {line : List Char}
    (h : ∀ ctx raw, todoMatchL line = some (ctx, raw) → ctxValid ctx = true) :
    (processLine tracker st line).updatedLines = st.updatedLines ++ [line] ∧
    (processLine tracker st line).calls = st.calls := by
  by_cases hh : startsW "+++".data line = true
  · rw [processLine_header hh]
    exact ⟨rfl, rfl⟩
  · rw [Bool.not_eq_true] at hh
    by_cases hp : startsW "+".data line = true
    · cases hm : todoMatchL line with
      | none => rw [processLine_noMatch hh hm]; exact ⟨rfl, rfl⟩
      | some r =>
        obtain ⟨ctx, raw⟩ := r
        cases hf : st.currentFile with
        | none => rw [processLine_noFile hm hf]; exact ⟨rfl, rfl⟩
        | some cf =>
          by_cases hcf : cf = []
          · subst hcf
            rw [processLine_emptyFile hm hf]
            exact ⟨rfl, rfl⟩
          · rw [processLine_skip hm (h ctx raw hm) hf hcf]
            exact ⟨rfl, rfl⟩
    · rw [Bool.not_eq_true] at hp
      rw [processLine_ctx hh hp]
      exact ⟨rfl, rfl⟩

/-- The scanning loop over lines all of whose TODO matches carry a valid
context appends every line unchanged and makes no creation call. -/
theorem foldl_validOnly (tracker : List Char → Option (List Char))
    (lines : List (List Char)) :
    ∀ st : PtState,
      (∀ l ∈ lines, ∀ ctx raw, todoMatchL l = some (ctx, raw) →
        ctxValid ctx = true) →
      (lines.foldl (processLine tracker) st).updatedLines =
          st.updatedLines ++ lines ∧
        (lines.foldl (processLine tracker) st).calls = st.calls := by
  induction lines with
  | nil => intro st _; simp
  | cons l rest ih =>
    intro st h
    have hstep := @processLine_validOnly tracker st l
      (fun ctx raw hm => h l (List.mem_cons_self l rest) ctx raw hm)
    have hrest := ih (processLine tracker st l)
      (fun l' hl' ctx raw hm => h l' (List.mem_cons_of_mem l hl') ctx raw hm)
    rw [List.foldl_cons]
    refine ⟨?_, ?_⟩
    · rw [hrest.1, hstep.1, List.append_assoc]
      rfl
    · rw [hrest.2, hstep.2]

/-- Concrete tracker used in the witnesses and counterexamples: returns
the identifier `ENG-42` for the title `fix bounds check` and fails on
every other title. -/
def trENG : List Char → Option (List Char) := fun c =>
  if c = "fix bounds check".data then some "ENG-42".data else none

/-- Concrete tracker that always fails (a remote creation failure for every
title). -/
def trFail : List Char → Option (List Char) := fun _ => none

/-- Concrete loop state in which a `+++ b/x.py` header has been seen. -/
def stX : PtState := ⟨some "x.py".data, [], [], [], []⟩

/-- C1 (counterexample): running `process_todos` extraction on the diff
`+++ b/x.py` / `+    # TODO: fix bounds check` with a tracker returning
`ENG-42` records the FileEdit pair with the leading whitespace preserved,
`("    # TODO: fix bounds check", "    # TODO(ENG-42): fix bounds check")`,
not the pair `("# TODO: fix bounds check", "# TODO(ENG-42): fix bounds check")`
stated by the claim. -/
theorem c1_counterexample :
    (processTodosLines trENG
        ["+++ b/x.py".data, "+    # TODO: fix bounds check".data]).fileChanges =
      [("x.py".data,
        [("    # TODO: fix bounds check".data,
          "    # TODO(ENG-42): fix bounds check".data)])] ∧
    [("x.py".data,
        [("    # TODO: fix bounds check".data,
          "    # TODO(ENG-42): fix bounds check".data)])] ≠
      [("x.py".data,
        [("# TODO: fix bounds check".data,
          "# TODO(ENG-42): fix bounds check".data)])] := by
  decide

/-- C1 (amended): for every added diff line containing an unresolved TODO
comment under a known current file (a non-empty path — Python's truthiness
guard treats an empty `current_file` as unset), when issue creation succeeds
with identifier `id`, the line is replaced in the output with
`<indent><comment-symbol> TODO(<id>): <comment>` (the indent being the `+`
marker together with the original leading whitespace), and the FileEdit pair
appended under that file is the old and new line with the leading `+`
stripped — the leading whitespace of both components is preserved. -/
theorem c1_rewrite_success {tracker : List Char → Option (List Char)}
    {st : PtState} {line cf id : List Char} {ctx : Option (List Char)}
    {raw : List Char}
    (hm : todoMatchL line = some (ctx, raw)) (hv : ctxValid ctx = false)
    (hf : st.currentFile = some cf) (hcf : cf ≠ [])
    (ht : tracker (stripWs raw) = some id) :
    (processLine tracker st line).updatedLines =
        st.updatedLines ++
          [plusIndent line ++ commentSymbol line ++ " TODO(".data ++ id ++
            "): ".data ++ stripWs raw] ∧
      (processLine tracker st line).fileChanges =
        addChange st.fileChanges cf
          (lstripPlus line,
           lstripPlus (plusIndent line ++ commentSymbol line ++
             " TODO(".data ++ id ++ "): ".data ++ stripWs raw)) := by
  rw [processLine_create hm hv hf hcf ht]
  exact ⟨rfl, rfl⟩

/-- C1 (witness): the concrete instance of the claim, with the corrected
FileEdit pair. -/
theorem c1_rewrite_success_witness :
    todoMatchL "+    # TODO: fix bounds check".data =
        some (none, "fix bounds check".data) ∧
      ((processLine trENG stX "+    # TODO: fix bounds check".data).updatedLines =
          [] ++
            [plusIndent "+    # TODO: fix bounds check".data ++
              commentSymbol "+    # TODO: fix bounds check".data ++
              " TODO(".data ++ "ENG-42".data ++ "): ".data ++
              stripWs "fix bounds check".data] ∧
        (processLine trENG stX "+    # TODO: fix bounds check".data).fileChanges =
          addChange [] "x.py".data
            (lstripPlus "+    # TODO: fix bounds check".data,
             lstripPlus (plusIndent "+    # TODO: fix bounds check".data ++
               commentSymbol "+    # TODO: fix bounds check".data ++
               " TODO(".data ++ "ENG-42".data ++ "): ".data ++
               stripWs "fix bounds check".data))) :=
  ⟨by decide,
   @c1_rewrite_success trENG stX "+    # TODO: fix bounds check".data
     "x.py".data "ENG-42".data none "fix bounds check".data
     (by decide) (by decide) rfl (by decide) (by decide)⟩

/-- C2: a TODO-matching added line whose context token matches the
issue-identifier shape, seen under a known current file (a non-empty path —
Python's truthiness guard treats an empty `current_file` as unset), is
passed through unchanged and recorded with the existing context as its
identifier, with no issue-creation call; and over a whole diff in which
every TODO match carries a valid context token, the extractor returns every
line unchanged and makes no creation call. -/
theorem c2_idempotence :
    (∀ (tracker : List Char → Option (List Char)) (st : PtState)
        (line cf ctx raw : List Char),
      todoMatchL line = some (some ctx, raw) → isIssueId ctx = true →
      st.currentFile = some cf → cf ≠ [] →
      processLine tracker st line =
        { st with
            todos := st.todos ++ [(cf, line, ctx, stripWs raw)],
            updatedLines := st.updatedLines ++ [line] }) ∧
    (∀ (tracker : List Char → Option (List Char)) (lines : List (List Char)),
      (∀ l ∈ lines, ∀ ctx raw, todoMatchL l = some (ctx, raw) →
        ctxValid ctx = true) →
      (processTodosLines tracker lines).updatedLines = lines ∧
        (processTodosLines tracker lines).calls = []) := by
  constructor
  · intro tracker st line cf ctx raw hm hv hf hcf
    exact processLine_skip hm (by simpa [ctxValid] using hv) hf hcf
  · intro tracker lines h
    have := foldl_validOnly tracker lines initState h
    simpa [processTodosLines, initState] using this

/-- C2 (witness): the already-resolved line `+  // TODO(ENG-42): refactor`
is recorded and passed through, and a two-line diff containing it is
returned unchanged with no creation call. -/
theorem c2_idempotence_witness :
    todoMatchL "+  // TODO(ENG-42): refactor".data =
        some (some "ENG-42".data, "refactor".data) ∧
      processLine trFail stX "+  // TODO(ENG-42): refactor".data =
        { stX with
            todos := [("x.py".data, "+  // TODO(ENG-42): refactor".data,
              "ENG-42".data, stripWs "refactor".data)],
            updatedLines := ["+  // TODO(ENG-42): refactor".data] } ∧
      ((processTodosLines trFail
            ["+++ b/x.py".data, "+  // TODO(ENG-42): refactor".data]).updatedLines =
          ["+++ b/x.py".data, "+  // TODO(ENG-42): refactor".data] ∧
        (processTodosLines trFail
            ["+++ b/x.py".data, "+  // TODO(ENG-42): refactor".data]).calls = []) := by
  refine ⟨by decide, ?_, ?_⟩
  · have h := c2_idempotence.1 trFail stX "+  // TODO(ENG-42): refactor".data
      "x.py".data "ENG-42".data "refactor".data (by decide) (by decide) rfl
    simpa [stX] using h
  · refine c2_idempotence.2 trFail _ ?_
    intro l hl ctx raw hm
    simp only [List.mem_cons, List.not_mem_nil, or_false] at hl
    rcases hl with rfl | rfl
    · rw [show todoMatchL "+++ b/x.py".data = none from rfl] at hm
      exact Option.noConfusion hm
    · rw [show todoMatchL "+  // TODO(ENG-42): refactor".data =
          some (some "ENG-42".data, "refactor".data) from rfl] at hm
      obtain ⟨rfl, rfl⟩ := Prod.mk.injEq .. ▸ Option.some.inj hm
      decide

/-- C3 (counterexample): on the diff `+++ b/x.py` /
`+    # TODO: fix bounds check` with a tracker returning failure, the output
lines are unchanged but the returned todo list is empty — no TodoMatch with
a null identifier is recorded, contrary to the claim. -/
theorem c3_counterexample :
    (processTodosLines trFail
        ["+++ b/x.py".data, "+    # TODO: fix bounds check".data]).todos = [] ∧
    (processTodosLines trFail
        ["+++ b/x.py".data, "+    # TODO: fix bounds check".data]).updatedLines =
      ["+++ b/x.py".data, "+    # TODO: fix bounds check".data] := by
  decide

/-- C3 (amended): for every detected unresolved TODO under a known current
file, if the issue-creation call returns failure then the output line equals
the input line verbatim (including the leading `+` marker), no TodoMatch is
recorded in the returned todo list, no FileEdit is recorded, and processing
continues with the next line. -/
theorem c3_failure_preserves {tracker : List Char → Option (List Char)}
    {st : PtState} {line cf : List Char} {ctx : Option (List Char)}
    {raw : List Char}
    (hm : todoMatchL line = some (ctx, raw)) (hv : ctxValid ctx = false)
    (hf : st.currentFile = some cf)
    (ht : tracker (stripWs raw) = none) :
    (processLine tracker st line).updatedLines = st.updatedLines ++ [line] ∧
      (processLine tracker st line).todos = st.todos ∧
      (processLine tracker st line).fileChanges = st.fileChanges := by
  by_cases hcf : cf = []
  · subst hcf
    rw [processLine_emptyFile hm hf]
    exact ⟨rfl, rfl, rfl⟩
  · rw [processLine_fail hm hv hf hcf ht]
    exact ⟨rfl, rfl, rfl⟩

/-- C3 (witness): the concrete failing instance. -/
theorem c3_failure_preserves_witness :
    todoMatchL "+    # TODO: fix bounds check".data =
        some (none, "fix bounds check".data) ∧
      ((processLine trFail stX "+    # TODO: fix bounds check".data).updatedLines =
          [] ++ ["+    # TODO: fix bounds check".data] ∧
        (processLine trFail stX "+    # TODO: fix bounds check".data).todos = [] ∧
        (processLine trFail stX "+    # TODO: fix bounds check".data).fileChanges =
          []) :=
  ⟨by decide,
   @c3_failure_preserves trFail stX "+    # TODO: fix bounds check".data
     "x.py".data none "fix bounds check".data
     (by decide) (by decide) rfl (by decide)⟩

/-- A line that is not a `+++` header leaves `current_file` untouched when
it is `None`, and is passed through unchanged. -/
theorem processLine_beforeHeader {tracker : List Char → Option (List Char)}
    {st : PtState} {line : List Char}
    (hh : startsW "+++".data line = false) (hf : st.currentFile = none) :
    processLine tracker st line =
      { st with updatedLines := st.updatedLines ++ [line] } := by
  by_cases hp : startsW "+".data line = true
  · cases hm : todoMatchL line with
    | none => exact processLine_noMatch hh hm
    | some r => exact processLine_noFile hm hf
  · rw [Bool.not_eq_true] at hp
    exact processLine_ctx hh hp

/-- C6: every line of a diff prefix that contains no `+++` file header —
in particular any TODO-shaped added line appearing before the first header —
is passed through to the output unchanged, and the scan of such a prefix
records no todo, no FileEdit, and makes no issue-creation call. -/
theorem c6_no_file_context (tracker : List Char → Option (List Char))
    (pre : List (List Char))
    (h : ∀ l ∈ pre, startsW "+++".data l = false) :
    processTodosLines tracker pre =
      { currentFile := none, updatedLines := pre, todos := [],
        fileChanges := [], calls := [] } := by
  have main : ∀ (lines : List (List Char)) (st : PtState),
      st.currentFile = none →
      (∀ l ∈ lines, startsW "+++".data l = false) →
      lines.foldl (processLine tracker) st =
        { st with updatedLines := st.updatedLines ++ lines } := by
    intro lines
    induction lines with
    | nil => intro st _ _; simp
    | cons l rest ih =>
      intro st hf hl
      rw [List.foldl_cons,
        processLine_beforeHeader (hl l (List.mem_cons_self l rest)) hf,
        ih { st with updatedLines := st.updatedLines ++ [l] } hf
          (fun l' hl' => hl l' (List.mem_cons_of_mem l hl'))]
      simp
  have := main pre initState rfl h
  simpa [processTodosLines, initState] using this

/-- C6 (witness): a TODO-shaped added line before any header passes through. -/
theorem c6_no_file_context_witness :
    (∀ l ∈ [("+    # TODO: fix bounds check".data : List Char)],
        startsW "+++".data l = false) ∧
      processTodosLines trENG ["+    # TODO: fix bounds check".data] =
        { currentFile := none,
          updatedLines := ["+    # TODO: fix bounds check".data],
          todos := [], fileChanges := [], calls := [] } :=
  ⟨by decide,
   c6_no_file_context trENG ["+    # TODO: fix bounds check".data] (by decide)⟩

/-- C9: with `test_mode = True` the whole file-synchronization block of
`process_todos` is skipped: no file is read or written and the working tree
is returned unchanged; only the rewritten diff text and the todo list are
produced. -/
theorem c9_test_mode_no_file_effects (tracker : List Char → Option (List Char))
    (diff : List Char) (fs0 : FileSys) :
    (process_todos tracker true diff fs0).fs = fs0 ∧
      (process_todos tracker true diff fs0).reads = [] ∧
      (process_todos tracker true diff fs0).writes = [] ∧
      (process_todos tracker true diff fs0).syncLog = [] :=
  ⟨rfl, rfl, rfl, rfl⟩

/-- Concrete configuration with the project identifier missing. -/
def cfgNoProject : LinearConfig :=
  ⟨some "key".data, some "team".data, none⟩

/-- C8 (counterexample): in normal mode with the API key and team identifier
set but the project identifier missing, `create_linear_issue` returns the
failure value after printing the configuration error only — it performs no
remote call and, contrary to the claim, no team/project listing. -/
theorem c8_counterexample :
    create_linear_issue (fun _ => none) (fun _ => []) cfgNoProject false
        "fix bounds check".data =
      (none,
        [LinEvent.printError
          "Error: LINEAR_PROJECT_ID not found in environment variables".data]) ∧
    LinEvent.listTeams ∉
      (create_linear_issue (fun _ => none) (fun _ => []) cfgNoProject false
        "fix bounds check".data).2 := by
  decide

/-- C8 (amended): in normal mode, if any of the API key, team identifier or
project identifier is missing, `create_linear_issue` prints a single
configuration error and returns the failure value `None` before any remote
call — no creation call and no team/project listing happens (the best-effort
listing only runs in the handler of a failed remote creation call).  The
separate `LinearClient._init_client` also fails on any missing variable, but
by raising an exception; there a missing project identifier does trigger the
team/project listing first. -/
theorem c8_config_failure (remote : List Char → Option (List Char))
    (testId : List Char → List Char) (cfg : LinearConfig) (title : List Char)
    (h : cfg.api_key = none ∨ cfg.team_id = none ∨ cfg.project_id = none) :
    ((create_linear_issue remote testId cfg false title).1 = none ∧
      (∃ m, (create_linear_issue remote testId cfg false title).2 =
        [LinEvent.printError m]) ∧
      (∀ t, LinEvent.createCall t ∉
        (create_linear_issue remote testId cfg false title).2) ∧
      LinEvent.listTeams ∉
        (create_linear_issue remote testId cfg false title).2) ∧
    ((∃ e, (linearClientInitClient cfg).1 = Except.error e) ∧
      (cfg.api_key ≠ none → cfg.team_id ≠ none →
        LinEvent.listTeams ∈ (linearClientInitClient cfg).2)) := by
  obtain ⟨a, t, p⟩ := cfg
  cases a <;> cases t <;> cases p <;>
    simp_all [create_linear_issue, linearClientInitClient]

/-- C8 (witness): the concrete missing-project configuration. -/
theorem c8_config_failure_witness :
    (cfgNoProject.api_key = none ∨ cfgNoProject.team_id = none ∨
        cfgNoProject.project_id = none) ∧
      (((create_linear_issue (fun _ => none) (fun _ => []) cfgNoProject false
            "fix bounds check".data).1 = none ∧
        (∃ m, (create_linear_issue (fun _ => none) (fun _ => []) cfgNoProject
            false "fix bounds check".data).2 = [LinEvent.printError m]) ∧
        (∀ t, LinEvent.createCall t ∉
          (create_linear_issue (fun _ => none) (fun _ => []) cfgNoProject false
            "fix bounds check".data).2) ∧
        LinEvent.listTeams ∉
          (create_linear_issue (fun _ => none) (fun _ => []) cfgNoProject false
            "fix bounds check".data).2) ∧
      ((∃ e, (linearClientInitClient cfgNoProject).1 = Except.error e) ∧
        (cfgNoProject.api_key ≠ none → cfgNoProject.team_id ≠ none →
          LinEvent.listTeams ∈ (linearClientInitClient cfgNoProject).2))) :=
  ⟨by decide,
   c8_config_failure (fun _ => none) (fun _ => []) cfgNoProject
     "fix bounds check".data (by decide)⟩

/-- Textual containment (Python's `in` on strings): `seg` occurs as a
contiguous segment of `l`.  Used only to state the verification property of
the claim. -/
def containsSeg (l seg : List Char) : Bool :=
  (List.range (l.length + 1)).any (fun i => startsW seg (l.drop i))

/-- The pending edit recorded by the extractor for the indented bounds-check
TODO (leading whitespace preserved, see `c1_counterexample`). -/
def fcBounds : List (List Char × List FileEdit) :=
  [("x.py".data,
    [("    # TODO: fix bounds check".data,
      "    # TODO(ENG-42): fix bounds check".data)])]

/-- A working tree whose `x.py` holds the TODO line unindented: the
synchronizer's comparison matches and the edit lands. -/
def fsLands : FileSys := fun p =>
  if p = "x.py".data then some "# TODO: fix bounds check\n".data else none

/-- A working tree whose `x.py` holds the TODO line with its original
indentation: the synchronizer's comparison never matches and the edit is
lost. -/
def fsMisses : FileSys := fun p =>
  if p = "x.py".data then some "    # TODO: fix bounds check\n".data
  else none

/-- C5 (counterexample): the synchronizer writes `x.py` and prints exactly
the same two messages whether or not the new-line value ends up in the
written content; in the second run the written content does not contain the
new line, yet no verification warning (indeed no further message at all) is
reported — there is no re-read verification step. -/
theorem c5_counterexample :
    (syncFiles fcBounds fsLands).log = (syncFiles fcBounds fsMisses).log ∧
      (syncFiles fcBounds fsMisses).writes =
        [("x.py".data, "    # TODO: fix bounds check\n".data)] ∧
      containsSeg "    # TODO: fix bounds check\n".data
          "    # TODO(ENG-42): fix bounds check".data = false ∧
      (syncFiles fcBounds fsMisses).log =
        ["\nUpdating file: x.py".data, "✅ Updated 1 TODOs in x.py".data] := by
  decide

/-- C5 (amended): after writing a file the synchronizer performs no re-read
and no verification: for every readable file it writes the updated content
and logs exactly the per-file header and the unconditional success message
with the pending-edit count — the same messages whether or not every
new-line value is present in the written content, so a missing value
produces no warning (and there is no rollback, the write stands). -/
theorem c5_no_verification (path : List Char) (changes : List FileEdit)
    (fs0 : FileSys) (content : List Char) (h : fs0 path = some content) :
    (syncFiles [(path, changes)] fs0).writes =
        [(path, updateFileContent changes content)] ∧
      (syncFiles [(path, changes)] fs0).fs path =
        some (updateFileContent changes content) ∧
      (syncFiles [(path, changes)] fs0).log =
        ["\nUpdating file: ".data ++ path,
         "✅ Updated ".data ++ (toString changes.length).data ++
           " TODOs in ".data ++ path] := by
  simp [syncFiles, h]

/-- C5 (witness): the concrete run in which the edit misses. -/
theorem c5_no_verification_witness :
    fsMisses "x.py".data = some "    # TODO: fix bounds check\n".data ∧
      ((syncFiles fcBounds fsMisses).writes =
          [("x.py".data,
            updateFileContent
              [("    # TODO: fix bounds check".data,
                "    # TODO(ENG-42): fix bounds check".data)]
              "    # TODO: fix bounds check\n".data)] ∧
        (syncFiles fcBounds fsMisses).fs "x.py".data =
          some (updateFileContent
            [("    # TODO: fix bounds check".data,
              "    # TODO(ENG-42): fix bounds check".data)]
            "    # TODO: fix bounds check\n".data) ∧
        (syncFiles fcBounds fsMisses).log =
          ["\nUpdating file: ".data ++ "x.py".data,
           "✅ Updated ".data ++ (toString
             ([("    # TODO: fix bounds check".data,
                "    # TODO(ENG-42): fix bounds check".data)] :
               List FileEdit).length).data ++
             " TODOs in ".data ++ "x.py".data]) :=
  ⟨by decide,
   c5_no_verification "x.py".data
     [("    # TODO: fix bounds check".data,
       "    # TODO(ENG-42): fix bounds check".data)]
     fsMisses "    # TODO: fix bounds check\n".data (by decide)⟩

/-!
## Lemmas about `readlines`/`writelines` round trips, for the
file-synchronization claims
-/

/-- The shape of a `readlines` result: every chunk is a newline-terminated
line whose core has no newline, except that the last chunk may be a
non-empty newline-free remainder. -/
inductive Chunks : List (List Char) → Prop
  | nil : Chunks []
  | cons (core : List Char) (rest : List (List Char)) (hn : '\n' ∉ core)
      (hr : Chunks rest) : Chunks ((core ++ ['\n']) :: rest)
  | single (core : List Char) (h : core ≠ []) (hn : '\n' ∉ core) :
      Chunks [core]

theorem readlinesL_chunks (c : List Char) : Chunks (readlinesL c) := by
  induction c with
  | nil => exact Chunks.nil
  | cons x rest ih =>
    by_cases hx : x = '\n'
    · subst hx
      show Chunks (readlinesL ('\n' :: rest))
      rw [show readlinesL ('\n' :: rest) = ['\n'] :: readlinesL rest from by
        simp [readlinesL]]
      exact Chunks.cons [] _ (by simp) ih
    · rw [show readlinesL (x :: rest) =
          (match readlinesL rest with
           | [] => [[x]]
           | h :: t => (x :: h) :: t) from by simp [readlinesL, hx]]
      cases hr : readlinesL rest with
      | nil => exact Chunks.single [x] (by simp) (by simp [Ne.symm hx])
      | cons h t =>
        rw [hr] at ih
        cases ih with
        | cons core _ hn hr' =>
          exact Chunks.cons (x :: core) t (by simp [Ne.symm hx, hn]) hr'
        | single _ hne hn =>
          exact Chunks.single (x :: h) (by simp) (by simp [Ne.symm hx, hn])

theorem readlinesL_append_nl {core : List Char} (rest : List Char)
    (hn : '\n' ∉ core) :
    readlinesL (core ++ '\n' :: rest) = (core ++ ['\n']) :: readlinesL rest := by
  induction core with
  | nil => simp [readlinesL]
  | cons x core ih =>
    have hx : x ≠ '\n' := fun h => hn (h ▸ List.mem_cons_self x core)
    have ih' := ih (fun h => hn (List.mem_cons_of_mem x h))
    simp only [List.cons_append, readlinesL, if_neg hx, List.append_eq, ih']

theorem readlinesL_no_nl {core : List Char} (h : core ≠ [])
    (hn : '\n' ∉ core) : readlinesL core = [core] := by
  induction core with
  | nil => exact absurd rfl h
  | cons x core ih =>
    have hx : x ≠ '\n' := fun hh => hn (hh ▸ List.mem_cons_self x core)
    by_cases hc : core = []
    · subst hc; simp [readlinesL, hx]
    · have := ih hc (fun hh => hn (List.mem_cons_of_mem x hh))
      simp only [readlinesL, if_neg hx, this]

theorem chunks_flatten_readlinesL {ls : List (List Char)} (h : Chunks ls) :
    readlinesL ls.flatten = ls := by
  induction h with
  | nil => rfl
  | cons core rest hn _ ih =>
    have : ((core ++ ['\n']) :: rest).flatten = core ++ '\n' :: rest.flatten := by
      simp
    rw [this, readlinesL_append_nl _ hn, ih]
  | single core hne hn =>
    simp [readlinesL_no_nl hne hn]

/-- `dropWhile` with a predicate false on the head is the identity. -/
theorem dropWhile_of_head_neg {p : Char → Bool} {l : List Char}
    (h : ∀ x ∈ l, p x = false) : l.dropWhile p = l := by
  cases l with
  | nil => rfl
  | cons a as =>
    rw [List.dropWhile_cons_of_neg]
    simp [h a (List.mem_cons_self a as)]

/-- `rstrip('\n')` of a line not containing `'\n'` is the identity. -/
theorem rstripNl_of_not_mem {l : List Char} (h : '\n' ∉ l) : rstripNl l = l := by
  unfold rstripNl
  rw [dropWhile_of_head_neg, List.reverse_reverse]
  intro x hx
  simp only [List.mem_reverse] at hx
  simp only [decide_eq_false_iff_not]
  intro hx'
  exact h (hx' ▸ hx)

/-- `rstrip('\n')` removes a single trailing newline. -/
theorem rstripNl_append_nl (l : List Char) :
    rstripNl (l ++ ['\n']) = rstripNl l := by
  unfold rstripNl
  simp

/-- The single-edit update of one file line, in closed form. -/
theorem updLine_eq {old new : List Char} (h3 : stripWs old = old)
    (l : List Char) :
    updLine [(old, new)] l =
      if rstripNl l = old then new ++ ['\n'] else l := by
  by_cases hc : rstripNl l = old
  · simp [updLine, List.find?, h3, hc]
  · simp [updLine, List.find?, h3, hc]

theorem chunks_map_upd {old new : List Char} (h3 : stripWs old = old)
    (h4 : '\n' ∉ new) {ls : List (List Char)} (h : Chunks ls) :
    Chunks (ls.map (updLine [(old, new)])) := by
  induction h with
  | nil => exact Chunks.nil
  | cons core rest hn _ ih =>
    rw [List.map_cons, updLine_eq h3]
    by_cases hc : rstripNl (core ++ ['\n']) = old
    · rw [if_pos hc]
      exact Chunks.cons new _ h4 ih
    · rw [if_neg hc]
      exact Chunks.cons core _ hn ih
  | single core hne hn =>
    rw [List.map_cons, List.map_nil, updLine_eq h3]
    by_cases hc : rstripNl core = old
    · rw [if_pos hc]
      exact Chunks.cons new [] h4 Chunks.nil
    · rw [if_neg hc]
      exact Chunks.single core hne hn

theorem updLine_rstrip {old new : List Char} (h3 : stripWs old = old)
    (h4 : '\n' ∉ new) (l : List Char) :
    rstripNl (updLine [(old, new)] l) =
      if rstripNl l = old then new else rstripNl l := by
  rw [updLine_eq h3]
  by_cases hc : rstripNl l = old
  · rw [if_pos hc, if_pos hc, rstripNl_append_nl, rstripNl_of_not_mem h4]
  · rw [if_neg hc, if_neg hc]

theorem updLine_idem {old new : List Char} (h3 : stripWs old = old)
    (h4 : '\n' ∉ new) (h5 : new ≠ old) (l : List Char) :
    updLine [(old, new)] (updLine [(old, new)] l) = updLine [(old, new)] l := by
  simp only [updLine_eq h3]
  by_cases hc : rstripNl l = old
  · simp [hc, rstripNl_append_nl, rstripNl_of_not_mem h4, h5]
  · simp [hc]

theorem count_map_repl_new {old new : List Char} (h5 : new ≠ old)
    (xs : List (List Char)) :
    (xs.map (fun x => if x = old then new else x)).count new =
      xs.count old + xs.count new := by
  induction xs with
  | nil => rfl
  | cons x xs ih =>
    by_cases hx : x = old
    · have hxn : ¬x = new := fun h => h5 (h ▸ hx)
      rw [List.map_cons, if_pos hx, List.count_cons, List.count_cons,
        List.count_cons, ih]
      simp [beq_iff_eq, hx, hxn, h5, Ne.symm h5] <;> omega
    · rw [List.map_cons, if_neg hx, List.count_cons, List.count_cons,
        List.count_cons, ih]
      by_cases hxn : x = new
      · simp [beq_iff_eq, hx, hxn, h5, Ne.symm h5] <;> omega
      · simp [beq_iff_eq, hx, hxn, h5, Ne.symm h5] <;> omega

theorem count_map_repl_old {old new : List Char} (h5 : new ≠ old)
    (xs : List (List Char)) :
    (xs.map (fun x => if x = old then new else x)).count old = 0 := by
  induction xs with
  | nil => rfl
  | cons x xs ih =>
    by_cases hx : x = old
    · subst hx
      simp [List.count_cons, ih, h5]
    · simp [List.count_cons, ih, hx]

/-- C4 (counterexample): the pending edit recorded for the indented
bounds-check line never lands: on a file consisting exactly of the old-line
text (with its leading whitespace), one synchronization pass leaves the file
unchanged — the new-line text is absent and the old-line text still present,
because the code compares the file line (only its trailing newline removed)
against the whitespace-stripped old pattern, not "ignoring surrounding
whitespace on both sides". -/
theorem c4_counterexample :
    updateFileContent
        [("    # TODO: fix bounds check".data,
          "    # TODO(ENG-42): fix bounds check".data)]
        "    # TODO: fix bounds check\n".data =
      "    # TODO: fix bounds check\n".data ∧
    containsSeg "    # TODO: fix bounds check\n".data
        "    # TODO(ENG-42): fix bounds check".data = false ∧
    containsSeg "    # TODO: fix bounds check\n".data
        "    # TODO: fix bounds check".data = true := by
  decide

/-- C4 (amended): the synchronizer compares each file line with its trailing
newline removed against each pending old-line pattern stripped of
surrounding whitespace, replacing a matching line with the new line;
consequently, for an old-line pattern carrying no surrounding whitespace:
if the file contains the old-line text exactly once as a line and the
new-line text not at all, then after one pass the file contains the new-line
text exactly once as a line and the old-line text no longer, and a second
pass with the same edit is a no-op. -/
theorem c4_sync_convergence (old new content : List Char)
    (h3 : stripWs old = old) (h4 : '\n' ∉ new) (h5 : new ≠ old)
    (h1 : ((readlinesL content).map rstripNl).count old = 1)
    (h2 : ((readlinesL content).map rstripNl).count new = 0) :
    ((readlinesL (updateFileContent [(old, new)] content)).map
        rstripNl).count new = 1 ∧
      ((readlinesL (updateFileContent [(old, new)] content)).map
        rstripNl).count old = 0 ∧
      updateFileContent [(old, new)]
          (updateFileContent [(old, new)] content) =
        updateFileContent [(old, new)] content := by
  have hch := readlinesL_chunks content
  have hmap := chunks_map_upd h3 h4 hch
  have hrt : readlinesL (updateFileContent [(old, new)] content) =
      (readlinesL content).map (updLine [(old, new)]) :=
    chunks_flatten_readlinesL hmap
  have hcomm : ((readlinesL content).map (updLine [(old, new)])).map rstripNl =
      ((readlinesL content).map rstripNl).map
        (fun x => if x = old then new else x) := by
    rw [List.map_map, List.map_map]
    refine List.map_congr_left ?_
    intro l _
    exact updLine_rstrip h3 h4 l
  refine ⟨?_, ?_, ?_⟩
  · rw [hrt, hcomm, count_map_repl_new h5, h1, h2]
  · rw [hrt, hcomm, count_map_repl_old h5]
  · have e1 : updateFileContent [(old, new)]
        (updateFileContent [(old, new)] content) =
        ((readlinesL (updateFileContent [(old, new)] content)).map
          (updLine [(old, new)])).flatten := rfl
    have e2 : updateFileContent [(old, new)] content =
        ((readlinesL content).map (updLine [(old, new)])).flatten := rfl
    rw [e1, hrt, e2, List.map_map]
    congr 1
    refine List.map_congr_left ?_
    intro l _
    simpa using updLine_idem h3 h4 h5 l

/-- C4 (witness): a file holding `x = 1` and the unindented bounds-check
TODO line converges in one pass and is stable under a second pass. -/
theorem c4_sync_convergence_witness :
    (stripWs "# TODO: fix bounds check".data = "# TODO: fix bounds check".data ∧
      ((readlinesL "x = 1\n# TODO: fix bounds check\n".data).map
        rstripNl).count "# TODO: fix bounds check".data = 1) ∧
      (((readlinesL (updateFileContent
            [("# TODO: fix bounds check".data,
              "# TODO(ENG-42): fix bounds check".data)]
            "x = 1\n# TODO: fix bounds check\n".data)).map
          rstripNl).count "# TODO(ENG-42): fix bounds check".data = 1 ∧
        ((readlinesL (updateFileContent
            [("# TODO: fix bounds check".data,
              "# TODO(ENG-42): fix bounds check".data)]
            "x = 1\n# TODO: fix bounds check\n".data)).map
          rstripNl).count "# TODO: fix bounds check".data = 0 ∧
        updateFileContent
            [("# TODO: fix bounds check".data,
              "# TODO(ENG-42): fix bounds check".data)]
            (updateFileContent
              [("# TODO: fix bounds check".data,
                "# TODO(ENG-42): fix bounds check".data)]
              "x = 1\n# TODO: fix bounds check\n".data) =
          updateFileContent
            [("# TODO: fix bounds check".data,
              "# TODO(ENG-42): fix bounds check".data)]
            "x = 1\n# TODO: fix bounds check\n".data) :=
  ⟨⟨by decide, by decide⟩,
   c4_sync_convergence "# TODO: fix bounds check".data
     "# TODO(ENG-42): fix bounds check".data
     "x = 1\n# TODO: fix bounds check\n".data
     (by decide) (by decide) (by decide) (by decide) (by decide)⟩

/-!
## Lemmas about `split('\n')` / `'\n'.join` round trips and character
provenance of rewritten lines, for the shape-preservation claim
-/

theorem splitNlL_no_newline (d : List Char) :
    ∀ l ∈ splitNlL d, '\n' ∉ l := by
  induction d with
  | nil =>
    intro l hl
    simp only [splitNlL, List.mem_singleton] at hl
    simp [hl]
  | cons c rest ih =>
    intro l hl
    by_cases hc : c = '\n'
    · subst hc
      simp only [splitNlL, if_pos rfl] at hl
      cases hl with
      | head => simp
      | tail _ h => exact ih l h
    · simp only [splitNlL, if_neg hc] at hl
      cases hs : splitNlL rest with
      | nil => rw [hs] at hl; simp only [List.mem_singleton] at hl; simp [hl, Ne.symm hc]
      | cons h t =>
        rw [hs] at hl
        simp only [List.mem_cons] at hl
        rcases hl with rfl | hl
        · have hh : '\n' ∉ h := ih h (by rw [hs]; exact List.mem_cons_self h t)
          simp [Ne.symm hc, hh]
        · exact ih l (by rw [hs]; exact List.mem_cons_of_mem h hl)

theorem splitNlL_ne_nil (d : List Char) : splitNlL d ≠ [] := by
  cases d with
  | nil => simp [splitNlL]
  | cons c rest =>
    by_cases hc : c = '\n'
    · simp [splitNlL, hc]
    · simp only [splitNlL, if_neg hc]
      cases h : splitNlL rest <;> simp [h]

theorem splitNlL_of_no_newline {l : List Char} (h : '\n' ∉ l) :
    splitNlL l = [l] := by
  induction l with
  | nil => rfl
  | cons c rest ih =>
    have hc : c ≠ '\n' := fun hh => h (hh ▸ List.mem_cons_self c rest)
    have := ih (fun hh => h (List.mem_cons_of_mem c hh))
    simp only [splitNlL, if_neg hc, this]

theorem splitNlL_append_nl {l : List Char} (x : List Char) (h : '\n' ∉ l) :
    splitNlL (l ++ '\n' :: x) = l :: splitNlL x := by
  induction l with
  | nil => simp [splitNlL]
  | cons c rest ih =>
    have hc : c ≠ '\n' := fun hh => h (hh ▸ List.mem_cons_self c rest)
    have ih' := ih (fun hh => h (List.mem_cons_of_mem c hh))
    simp only [List.cons_append, splitNlL, if_neg hc, List.append_eq, ih']

theorem splitNlL_joinNlL {ls : List (List Char)} (hne : ls ≠ [])
    (h : ∀ l ∈ ls, '\n' ∉ l) : splitNlL (joinNlL ls) = ls := by
  induction ls with
  | nil => exact absurd rfl hne
  | cons l rest ih =>
    cases rest with
    | nil =>
      show splitNlL (joinNlL [l]) = [l]
      rw [show joinNlL [l] = l from rfl]
      exact splitNlL_of_no_newline (h l (List.mem_cons_self l []))
    | cons l2 rest2 =>
      rw [show joinNlL (l :: l2 :: rest2) = l ++ '\n' :: joinNlL (l2 :: rest2)
          from rfl,
        splitNlL_append_nl _ (h l (List.mem_cons_self l _)),
        ih (by simp) (fun l' hl' => h l' (List.mem_cons_of_mem l hl'))]

theorem mem_stripWs {x : Char} {l : List Char} (h : x ∈ stripWs l) : x ∈ l := by
  unfold stripWs at h
  rw [List.mem_reverse] at h
  have h2 := (List.dropWhile_sublist _).subset h
  rw [List.mem_reverse] at h2
  exact (List.dropWhile_sublist _).subset h2

theorem mem_plusIndent {x : Char} {l : List Char} (h : x ∈ plusIndent l) :
    x ∈ l := by
  unfold plusIndent at h
  split at h
  · simp only [List.mem_cons] at h
    rcases h with rfl | h
    · exact List.mem_cons_self _ _
    · exact List.mem_cons_of_mem _ ((List.takeWhile_sublist _).subset h)
  · exact absurd h (List.not_mem_nil x)

theorem no_newline_commentSymbol (l : List Char) :
    '\n' ∉ commentSymbol l := by
  unfold commentSymbol
  split <;> decide

theorem afterCtx_subset {c : Option (List Char)} {l : List Char}
    {r : Option (List Char) × List Char} (h : afterCtx c l = some r) :
    r.2 ⊆ l := by
  unfold afterCtx at h
  split at h
  case _ rest =>
    simp only at h
    split at h
    · exact absurd h (by simp)
    · split at h
      · split at h
        case _ c1 c2 cs heq =>
          have hc1 : c1 ∈ rest.takeWhile pyIsSpace := by
            rw [← List.mem_reverse, heq]
            exact List.mem_cons_self _ _
          have := (List.takeWhile_sublist _).subset hc1
          cases h with
          | refl =>
            intro x hx
            simp only [List.mem_singleton] at hx
            exact List.mem_cons_of_mem _ (hx ▸ this)
        · exact absurd h (by simp)
      · cases h with
        | refl =>
          intro x hx
          exact List.mem_cons_of_mem _ ((List.dropWhile_sublist _).subset hx)
  · exact absurd h (by simp)

theorem afterTodo_subset {l : List Char} {r : Option (List Char) × List Char}
    (h : afterTodo l = some r) : r.2 ⊆ l := by
  unfold afterTodo at h
  split at h
  case _ rest =>
    simp only at h
    split at h
    case _ rest3 heq =>
      intro x hx
      have hx3 : x ∈ ')' :: rest3 := List.mem_cons_of_mem _ (afterCtx_subset h hx)
      rw [← heq] at hx3
      exact List.mem_cons_of_mem _ ((List.dropWhile_sublist _).subset hx3)
    · exact absurd h (by simp)
  · exact afterCtx_subset h

theorem todoKw_subset {l : List Char} {r : Option (List Char) × List Char}
    (h : todoKw l = some r) : r.2 ⊆ l := by
  unfold todoKw at h
  split at h
  case _ rest heq =>
    intro x hx
    have : x ∈ l.dropWhile pyIsSpace := by
      rw [heq]
      exact List.mem_cons_of_mem _ (List.mem_cons_of_mem _
        (List.mem_cons_of_mem _ (List.mem_cons_of_mem _ (afterTodo_subset h hx))))
    exact (List.dropWhile_sublist _).subset this
  · exact absurd h (by simp)

theorem todoMatchL_subset {l : List Char} {r : Option (List Char) × List Char}
    (h : todoMatchL l = some r) : r.2 ⊆ l := by
  unfold todoMatchL at h
  split at h
  case _ rest =>
    split at h
    case _ r2 heq =>
      intro x hx
      have : x ∈ rest.dropWhile pyIsSpace := by
        rw [heq]
        exact List.mem_cons_of_mem _ (todoKw_subset h hx)
      exact List.mem_cons_of_mem _ ((List.dropWhile_sublist _).subset this)
    case _ r2 heq =>
      intro x hx
      have : x ∈ rest.dropWhile pyIsSpace := by
        rw [heq]
        exact List.mem_cons_of_mem _ (List.mem_cons_of_mem _ (todoKw_subset h hx))
      exact List.mem_cons_of_mem _ ((List.dropWhile_sublist _).subset this)
    · exact absurd h (by simp)
  · exact absurd h (by simp)

/-- A line of the input for which the loop emits a different line: an added
TODO line without a valid context whose issue creation succeeded. -/
def rewrittenTodo (tracker : List Char → Option (List Char))
    (line : List Char) : Prop :=
  ∃ ctx raw id, todoMatchL line = some (ctx, raw) ∧ ctxValid ctx = false ∧
    tracker (stripWs raw) = some id

/-- Each loop iteration appends exactly one output line; it equals the input
line unless that line is a successfully rewritten TODO line, and it contains
no newline when the input line and the tracker identifiers contain none. -/
theorem processLine_out (tracker : List Char → Option (List Char))
    (st : PtState) (line : List Char) :
    ∃ l', (processLine tracker st line).updatedLines =
        st.updatedLines ++ [l'] ∧
      (l' = line ∨ rewrittenTodo tracker line) ∧
      ('\n' ∉ line → (∀ t id, tracker t = some id → '\n' ∉ id) →
        '\n' ∉ l') := by
  by_cases hh : startsW "+++".data line = true
  · exact ⟨line, by rw [processLine_header hh], Or.inl rfl, fun h _ => h⟩
  · rw [Bool.not_eq_true] at hh
    by_cases hp : startsW "+".data line = true
    · cases hm : todoMatchL line with
      | none =>
        exact ⟨line, by rw [processLine_noMatch hh hm], Or.inl rfl, fun h _ => h⟩
      | some r =>
        obtain ⟨ctx, raw⟩ := r
        cases hf : st.currentFile with
        | none =>
          exact ⟨line, by rw [processLine_noFile hm hf], Or.inl rfl, fun h _ => h⟩
        | some cf =>
          by_cases hcf : cf = []
          · subst hcf
            exact ⟨line, by rw [processLine_emptyFile hm hf], Or.inl rfl,
              fun h _ => h⟩
          · by_cases hv : ctxValid ctx = true
            · exact ⟨line, by rw [processLine_skip hm hv hf hcf], Or.inl rfl,
                fun h _ => h⟩
            · rw [Bool.not_eq_true] at hv
              cases ht : tracker (stripWs raw) with
              | none =>
                exact ⟨line, by rw [processLine_fail hm hv hf hcf ht],
                  Or.inl rfl, fun h _ => h⟩
              | some id =>
                refine ⟨plusIndent line ++ commentSymbol line ++ " TODO(".data ++
                    id ++ "): ".data ++ stripWs raw,
                  by rw [processLine_create hm hv hf hcf ht],
                  Or.inr ⟨ctx, raw, id, hm, hv, ht⟩, ?_⟩
                intro hline htr
                simp only [List.mem_append, not_or]
                refine ⟨⟨⟨⟨⟨fun hx => hline (mem_plusIndent hx),
                  fun hx => no_newline_commentSymbol line hx⟩, by decide⟩,
                  fun hx => htr _ _ ht hx⟩, by decide⟩,
                  fun hx => hline (todoMatchL_subset hm (mem_stripWs hx))⟩
    · rw [Bool.not_eq_true] at hp
      exact ⟨line, by rw [processLine_ctx hh hp], Or.inl rfl, fun h _ => h⟩

theorem foldl_out (tracker : List Char → Option (List Char))
    (lines : List (List Char)) :
    ∀ st : PtState,
      ∃ outs, (lines.foldl (processLine tracker) st).updatedLines =
          st.updatedLines ++ outs ∧
        outs.length = lines.length ∧
        (∀ i, outs.getD i [] = lines.getD i [] ∨
          rewrittenTodo tracker (lines.getD i [])) ∧
        ((∀ l ∈ lines, '\n' ∉ l) →
          (∀ t id, tracker t = some id → '\n' ∉ id) →
          ∀ l' ∈ outs, '\n' ∉ l') := by
  induction lines with
  | nil =>
    intro st
    exact ⟨[], by simp, rfl, fun i => Or.inl rfl, fun _ _ l' hl' => absurd hl' (by simp)⟩
  | cons l rest ih =>
    intro st
    obtain ⟨l', hout, hdis, hnl⟩ := processLine_out tracker st l
    obtain ⟨outs, hout2, hlen, hpos, hnl2⟩ := ih (processLine tracker st l)
    refine ⟨l' :: outs, ?_, by simp [hlen], ?_, ?_⟩
    · rw [List.foldl_cons, hout2, hout, List.append_assoc]
      rfl
    · intro i
      cases i with
      | zero => simpa using hdis
      | succ j => simpa using hpos j
    · intro hlines htr l'' hl''
      simp only [List.mem_cons] at hl''
      rcases hl'' with rfl | hl''
      · exact hnl (hlines l (List.mem_cons_self l rest)) htr
      · exact hnl2 (fun x hx => hlines x (List.mem_cons_of_mem l hx)) htr l'' hl''

/-- C10: the rewritten diff text returned by `process_todos` has exactly as
many lines as the input diff, and at every position the output line equals
the input line unless that input line is an added TODO line without a valid
context token whose issue creation succeeded (the tracker is assumed to
return identifiers without newline characters). -/
theorem c10_line_preservation (tracker : List Char → Option (List Char))
    (test_mode : Bool) (diff : List Char) (fs0 : FileSys)
    (htr : ∀ t id, tracker t = some id → '\n' ∉ id) :
    (splitNlL (process_todos tracker test_mode diff fs0).text).length =
        (splitNlL diff).length ∧
      ∀ i, (splitNlL (process_todos tracker test_mode diff fs0).text).getD i [] =
          (splitNlL diff).getD i [] ∨
        rewrittenTodo tracker ((splitNlL diff).getD i []) := by
  obtain ⟨outs, hout, hlen, hpos, hnl⟩ :=
    foldl_out tracker (splitNlL diff) initState
  have htext : (process_todos tracker test_mode diff fs0).text =
      joinNlL (processTodosLines tracker (splitNlL diff)).updatedLines := by
    unfold process_todos
    cases test_mode <;> rfl
  have hupd : (processTodosLines tracker (splitNlL diff)).updatedLines = outs := by
    rw [processTodosLines, hout]
    rfl
  have houtne : outs ≠ [] := by
    intro hempty
    have := splitNlL_ne_nil diff
    rw [hempty] at hlen
    exact this (List.eq_nil_of_length_eq_zero hlen.symm)
  have houtnl : ∀ l ∈ outs, '\n' ∉ l :=
    hnl (splitNlL_no_newline diff) htr
  have hsplit : splitNlL (process_todos tracker test_mode diff fs0).text = outs := by
    rw [htext, hupd, splitNlL_joinNlL houtne houtnl]
  constructor
  · rw [hsplit, hlen]
  · intro i
    rw [hsplit]
    exact hpos i

/-- C10 (witness): the two-line bounds-check diff under the concrete
tracker. -/
theorem c10_line_preservation_witness :
    (∀ t id, trENG t = some id → '\n' ∉ id) ∧
      ((splitNlL (process_todos trENG true
            "+++ b/x.py\n+    # TODO: fix bounds check".data
            (fun _ => none)).text).length =
          (splitNlL "+++ b/x.py\n+    # TODO: fix bounds check".data).length ∧
        ∀ i, (splitNlL (process_todos trENG true
              "+++ b/x.py\n+    # TODO: fix bounds check".data
              (fun _ => none)).text).getD i [] =
            (splitNlL "+++ b/x.py\n+    # TODO: fix bounds check".data).getD i [] ∨
          rewrittenTodo trENG
            ((splitNlL "+++ b/x.py\n+    # TODO: fix bounds check".data).getD i [])) := by
  have htr : ∀ t id, trENG t = some id → '\n' ∉ id := by
    intro t id h
    unfold trENG at h
    split at h
    · cases h with
      | refl => decide
    · exact Option.noConfusion h
  exact ⟨htr, c10_line_preservation trENG true
    "+++ b/x.py\n+    # TODO: fix bounds check".data (fun _ => none) htr⟩

/-!
## The candidate grammar: a positional characterization of `todo_pattern`
-/

theorem dropWhile_append_of_all {p : Char → Bool} {a : List Char}
    (b : List Char) (h : ∀ x ∈ a, p x = true) :
    (a ++ b).dropWhile p = b.dropWhile p := by
  induction a with
  | nil => rfl
  | cons x xs ih =>
    rw [List.cons_append,
      List.dropWhile_cons_of_pos (h x (List.mem_cons_self x xs)),
      ih (fun y hy => h y (List.mem_cons_of_mem x hy))]

theorem takeWhile_append_neg {p : Char → Bool} {a : List Char} {c : Char}
    (b : List Char) (h : ∀ x ∈ a, p x = true) (hc : p c = false) :
    (a ++ c :: b).takeWhile p = a := by
  induction a with
  | nil => simp [List.takeWhile_cons_of_neg, hc]
  | cons x xs ih =>
    rw [List.cons_append,
      List.takeWhile_cons_of_pos (h x (List.mem_cons_self x xs)),
      ih (fun y hy => h y (List.mem_cons_of_mem x hy))]

theorem dropWhile_append_neg {p : Char → Bool} {a : List Char} {c : Char}
    (b : List Char) (h : ∀ x ∈ a, p x = true) (hc : p c = false) :
    (a ++ c :: b).dropWhile p = c :: b := by
  rw [dropWhile_append_of_all _ h, List.dropWhile_cons_of_neg]
  simp [hc]

theorem afterCtx_isSome_iff (c : Option (List Char)) (l : List Char) :
    (afterCtx c l).isSome = true ↔
      ∃ c1 t, l = ':' :: c1 :: t ∧ pyIsSpace c1 = true ∧ t ≠ [] := by
  constructor
  · intro h
    unfold afterCtx at h
    split at h
    case _ rest =>
      simp only at h
      split at h
      · exact absurd h (by simp)
      case _ hws =>
        cases rest with
        | nil => simp at hws
        | cons c1 t =>
          by_cases hsp : pyIsSpace c1 = true
          · refine ⟨c1, t, rfl, hsp, ?_⟩
            intro hte
            subst hte
            split at h
            · split at h
              case _ a b bs heq =>
                rw [List.takeWhile_cons_of_pos hsp] at heq
                simp at heq
              · exact absurd h (by simp)
            case _ htl =>
              rw [List.dropWhile_cons_of_pos hsp] at htl
              simp at htl
          · rw [List.takeWhile_cons_of_neg (by simp [hsp])] at hws
            simp at hws
    · exact absurd h (by simp)
  · rintro ⟨c1, t, rfl, hsp, hne⟩
    simp only [afterCtx, List.takeWhile_cons_of_pos hsp,
      List.dropWhile_cons_of_pos hsp, List.isEmpty_cons, Bool.false_eq_true,
      if_false]
    cases hdt : t.dropWhile pyIsSpace with
    | cons d ds => simp
    | nil =>
      have htw : t.takeWhile pyIsSpace = t := by
        have := List.takeWhile_append_dropWhile pyIsSpace t
        rw [hdt, List.append_nil] at this
        exact this
      simp only [List.isEmpty_nil, if_true, htw]
      cases ht : t.reverse with
      | nil => exact absurd (List.reverse_eq_nil_iff.mp ht) hne
      | cons a as =>
        rw [show (c1 :: t).reverse = a :: (as ++ [c1]) from by
          rw [List.reverse_cons, ht]; rfl]
        cases as with
        | nil => simp
        | cons b bs => simp

/-- Whether `afterCtx` succeeds does not depend on the context argument it
threads through. -/
theorem afterCtx_isSome_congr (a b : Option (List Char)) (l : List Char) :
    (afterCtx a l).isSome = (afterCtx b l).isSome := by
  unfold afterCtx
  split
  case _ rest =>
    simp only
    by_cases h1 : (rest.takeWhile pyIsSpace).isEmpty = true
    · simp [h1]
    · by_cases h2 : (rest.dropWhile pyIsSpace).isEmpty = true
      · simp only [h1, h2, if_false, if_true, Bool.false_eq_true]
        cases hr : (rest.takeWhile pyIsSpace).reverse with
        | nil => simp
        | cons c cs => cases cs <;> simp
      · simp [h1, h2]
  · rfl

theorem afterTodo_isSome_iff (l : List Char) :
    (afterTodo l).isSome = true ↔
      ∃ ctxPart rest, l = ctxPart ++ rest ∧
        (ctxPart = [] ∨ ∃ ctx, ctxPart = '(' :: (ctx ++ [')']) ∧ ')' ∉ ctx) ∧
        (afterCtx none rest).isSome = true := by
  constructor
  · intro h
    unfold afterTodo at h
    split at h
    case _ rest0 =>
      simp only at h
      split at h
      case _ rest3 heq =>
        refine ⟨'(' :: (rest0.takeWhile (fun c => c ≠ ')') ++ [')']), rest3,
          ?_, Or.inr ⟨_, rfl, ?_⟩, ?_⟩
        · have hsplit := List.takeWhile_append_dropWhile
            (fun c => decide (c ≠ ')')) rest0
          rw [heq] at hsplit
          rw [List.cons_append, List.append_assoc]
          simp only [List.singleton_append]
          rw [hsplit]
        · intro hmem
          have := List.mem_takeWhile_imp hmem
          simp at this
        · rw [← afterCtx_isSome_congr
            (some (rest0.takeWhile (fun c => c ≠ ')'))) none rest3]
          exact h
      · exact absurd h (by simp)
    · exact ⟨[], l, rfl, Or.inl rfl, h⟩
  · rintro ⟨ctxPart, rest, rfl, hshape, hsome⟩
    rcases hshape with rfl | ⟨ctx, rfl, hnotin⟩
    · obtain ⟨c1, t, heq, hsp, hne⟩ := (afterCtx_isSome_iff none rest).mp hsome
      rw [List.nil_append, heq]
      rw [heq] at hsome
      exact hsome
    · obtain ⟨c1, t, heq, hsp, hne⟩ := (afterCtx_isSome_iff none rest).mp hsome
      have hrw : ('(' :: (ctx ++ [')'])) ++ rest = '(' :: (ctx ++ ')' :: rest) := by
        rw [List.cons_append, List.append_assoc]
        rfl
      rw [hrw]
      have hctx : ∀ x ∈ ctx, (fun c => decide (c ≠ ')')) x = true := by
        intro x hx
        simp only [decide_eq_true_eq]
        exact fun hx' => hnotin (hx' ▸ hx)
      have hdw : (ctx ++ ')' :: rest).dropWhile (fun c => c ≠ ')') = ')' :: rest :=
        dropWhile_append_neg _ hctx (by simp)
      unfold afterTodo
      simp only [hdw]
      rw [afterCtx_isSome_congr
        (some ((ctx ++ ')' :: rest).takeWhile fun c => decide (c ≠ ')')))
        none rest]
      exact hsome

theorem todoKw_isSome_iff (l : List Char) :
    (todoKw l).isSome = true ↔
      ∃ ws2 r4, l = ws2 ++ ("TODO".data ++ r4) ∧
        (∀ c ∈ ws2, pyIsSpace c = true) ∧ (afterTodo r4).isSome = true := by
  constructor
  · intro h
    unfold todoKw at h
    split at h
    case _ r4 heq =>
      refine ⟨l.takeWhile pyIsSpace, r4, ?_,
        fun c hc => List.mem_takeWhile_imp hc, h⟩
      have hsplit := List.takeWhile_append_dropWhile pyIsSpace l
      rw [heq] at hsplit
      exact hsplit.symm
    · exact absurd h (by simp)
  · rintro ⟨ws2, r4, rfl, hws, hsome⟩
    have hdw : (ws2 ++ ("TODO".data ++ r4)).dropWhile pyIsSpace =
        'T' :: 'O' :: 'D' :: 'O' :: r4 := by
      rw [dropWhile_append_of_all _ hws]
      rfl
    have : todoKw (ws2 ++ ("TODO".data ++ r4)) = afterTodo r4 := by
      unfold todoKw
      rw [hdw]
      rfl
    rw [this]
    exact hsome

theorem todoMatchL_isSome_iff (l : List Char) :
    (todoMatchL l).isSome = true ↔
      ∃ ws1 sym r2, l = '+' :: (ws1 ++ (sym ++ r2)) ∧
        (∀ c ∈ ws1, pyIsSpace c = true) ∧
        (sym = "#".data ∨ sym = "//".data) ∧ (todoKw r2).isSome = true := by
  constructor
  · intro h
    unfold todoMatchL at h
    split at h
    case _ rest =>
      have hsplit := List.takeWhile_append_dropWhile pyIsSpace rest
      split at h
      case _ r2 heq =>
        refine ⟨rest.takeWhile pyIsSpace, "#".data, r2, ?_,
          fun c hc => List.mem_takeWhile_imp hc, Or.inl rfl, h⟩
        rw [heq] at hsplit
        exact congrArg (List.cons '+') hsplit.symm
      case _ r2 heq =>
        refine ⟨rest.takeWhile pyIsSpace, "//".data, r2, ?_,
          fun c hc => List.mem_takeWhile_imp hc, Or.inr rfl, h⟩
        rw [heq] at hsplit
        exact congrArg (List.cons '+') hsplit.symm
      · exact absurd h (by simp)
    · exact absurd h (by simp)
  · rintro ⟨ws1, sym, r2, rfl, hws, hsym, hkw⟩
    rcases hsym with rfl | rfl
    · have hdw : (ws1 ++ ("#".data ++ r2)).dropWhile pyIsSpace = '#' :: r2 := by
        rw [dropWhile_append_of_all _ hws]
        rfl
      have hred : todoMatchL ('+' :: (ws1 ++ ("#".data ++ r2))) =
          match (ws1 ++ ("#".data ++ r2)).dropWhile pyIsSpace with
          | '#' :: r2 => todoKw r2
          | '/' :: '/' :: r2 => todoKw r2
          | _ => none := rfl
      rw [hred, hdw]
      exact hkw
    · have hdw : (ws1 ++ ("//".data ++ r2)).dropWhile pyIsSpace =
          '/' :: '/' :: r2 := by
        rw [dropWhile_append_of_all _ hws]
        rfl
      have hred : todoMatchL ('+' :: (ws1 ++ ("//".data ++ r2))) =
          match (ws1 ++ ("//".data ++ r2)).dropWhile pyIsSpace with
          | '#' :: r2 => todoKw r2
          | '/' :: '/' :: r2 => todoKw r2
          | _ => none := rfl
      rw [hred, hdw]
      exact hkw

/-- The grammar implemented by `todo_pattern`, stated positionally: added
marker, optional whitespace, a comment opener `#` or `//` (no `/*`),
optional whitespace, the literal `TODO`, an optional parenthesized context
group, a colon, at least one whitespace character, then at least one further
character of free text. -/
def todoGrammar (l : List Char) : Prop :=
  ∃ ws1 sym ws2 ctxPart ws3 body : List Char,
    l = '+' :: (ws1 ++ (sym ++ (ws2 ++ ("TODO".data ++
      (ctxPart ++ (':' :: (ws3 ++ body))))))) ∧
    (∀ c ∈ ws1, pyIsSpace c = true) ∧
    (sym = "#".data ∨ sym = "//".data) ∧
    (∀ c ∈ ws2, pyIsSpace c = true) ∧
    (ctxPart = [] ∨ ∃ ctx, ctxPart = '(' :: (ctx ++ [')']) ∧ ')' ∉ ctx) ∧
    ws3 ≠ [] ∧ (∀ c ∈ ws3, pyIsSpace c = true) ∧ body ≠ []

/-- C7 (counterexample): the block-comment line `+ /* TODO: fix */` matches
the spec's stated grammar (which lists `/*` among the comment openers) but
is not treated as a TODO candidate by the code: `todo_pattern` accepts only
`#` and `//`, so the line is passed through untouched. -/
theorem c7_counterexample :
    todoCandidateSpec "+ /* TODO: fix */".data = true ∧
      todoMatchL "+ /* TODO: fix */".data = none ∧
      processLine trENG stX "+ /* TODO: fix */".data =
        { stX with updatedLines := ["+ /* TODO: fix */".data] } := by
  decide

/-- C7 (amended): a diff line is treated as a TODO candidate — i.e. matched
by `todo_pattern` — if and only if it consists of the added-line marker,
optional leading whitespace, a comment opener among `#` or `//` only (the
`/*` opener of the spec's grammar is not accepted, and no trailing `*/` is
stripped), optional whitespace, the literal `TODO`, an optional
parenthesized context group, a colon, whitespace, and nonempty free text. -/
theorem c7_candidate_grammar (l : List Char) :
    (todoMatchL l).isSome = true ↔ todoGrammar l := by
  rw [todoMatchL_isSome_iff]
  constructor
  · rintro ⟨ws1, sym, r2, rfl, hws1, hsym, hkw⟩
    obtain ⟨ws2, r4, rfl, hws2, hat⟩ := (todoKw_isSome_iff r2).mp hkw
    obtain ⟨ctxPart, rest, rfl, hshape, hac⟩ := (afterTodo_isSome_iff r4).mp hat
    obtain ⟨c1, t, rfl, hsp, hne⟩ := (afterCtx_isSome_iff none rest).mp hac
    refine ⟨ws1, sym, ws2, ctxPart, [c1], t, rfl, hws1, hsym, hws2, hshape,
      by simp, ?_, hne⟩
    intro c hc
    simp only [List.mem_singleton] at hc
    exact hc ▸ hsp
  · rintro ⟨ws1, sym, ws2, ctxPart, ws3, body, rfl, hws1, hsym, hws2, hshape,
      hws3ne, hws3, hbody⟩
    cases ws3 with
    | nil => exact absurd rfl hws3ne
    | cons c0 ws3' =>
      refine ⟨ws1, sym, _, rfl, hws1, hsym, ?_⟩
      rw [todoKw_isSome_iff]
      refine ⟨ws2, _, rfl, hws2, ?_⟩
      rw [afterTodo_isSome_iff]
      refine ⟨ctxPart, _, rfl, hshape, ?_⟩
      rw [afterCtx_isSome_iff]
      exact ⟨c0, ws3' ++ body, rfl, hws3 c0 (List.mem_cons_self c0 ws3'),
        fun hh => hbody (List.append_eq_nil.mp hh).2⟩

end Gait
